import Mathlib

/-!
Verification of the generic-invocation engine of this repository
(`real_dubbo_client.go`, `web_server.go`, and the Nacos registry client).

The Go code is shallowly embedded over `Str := List Char` (Go strings are
byte strings; every input exercised here is ASCII, where byte indices,
`len`, and rune iteration coincide with character lists).  External library
behaviour that the code relies on (`encoding/json` parsing and marshalling,
`net/url.QueryUnescape`, `strings.*` helpers) is modelled by executable
definitions that mirror the documented semantics of those libraries on the
character ranges the claims exercise.
-/

set_option maxRecDepth 4000

/-- Go byte strings, as character lists (all inputs considered are ASCII). -/
abbrev Str := List Char

namespace GoStr

/-- `strings.HasPrefix` / `bytes.HasPrefix`. -/
def startsWith : Str → Str → Bool
  | _, [] => true
  | [], _ :: _ => false
  | c :: cs, p :: ps => c = p && startsWith cs ps

/-- `strings.Contains s pat` (occurrence of `pat` anywhere in `s`). -/
def containsSub : Str → Str → Bool
  | _, [] => true
  | [], _ :: _ => false
  | c :: cs, p :: ps => (c = p && startsWith cs ps) || containsSub cs (p :: ps)

/-- `strings.HasSuffix`. -/
def endsWith (s pat : Str) : Bool := startsWith s.reverse pat.reverse

/-- Go's `unicode.IsSpace` restricted to the ASCII range used by
`strings.TrimSpace`. -/
def isSpaceChar (c : Char) : Bool :=
  c = ' ' || c = '\t' || c = '\n' || c = '\r' || c = '\x0b' || c = '\x0c'

/-- `strings.TrimSpace` (leading part). -/
def trimLeft : Str → Str
  | [] => []
  | c :: cs => if isSpaceChar c then trimLeft cs else c :: cs

/-- `strings.TrimSpace`. -/
def trim (s : Str) : Str := ((trimLeft s).reverse |> trimLeft).reverse

/-- One step of `strings.Split`: split off everything before the first
occurrence of the (non-empty) separator; `none` if the separator does not
occur. -/
def splitOnceAux : Str → Str → Option (Str × Str)
  | [], _ => none
  | c :: cs, pat =>
    if startsWith (c :: cs) pat then some ([], (c :: cs).drop pat.length)
    else match splitOnceAux cs pat with
      | some (pre, post) => some (c :: pre, post)
      | none => none

def splitOnStrFuel : Nat → Str → Str → List Str
  | 0, s, _ => [s]
  | fuel + 1, s, pat =>
    match splitOnceAux s pat with
    | none => [s]
    | some (pre, post) => pre :: splitOnStrFuel fuel post pat

/-- `strings.Split s pat` for a non-empty separator `pat` (the code never
splits on an empty separator; that case is mapped to `[s]`).  Each split
step consumes at least the separator (`splitOnceAux_post_lt`), so
`s.length + 1` steps always suffice. -/
def splitOnStr (s pat : Str) : List Str :=
  if pat = [] then [s] else splitOnStrFuel (s.length + 1) s pat

/-- `strings.Replace s old new -1` (replace every occurrence), for
non-empty `old`. -/
def replaceAll (s oldPat newPat : Str) : Str :=
  match splitOnStr s oldPat with
  | [] => []
  | first :: rest => first ++ (rest.map (fun piece => newPat ++ piece)).flatten

/-- `strings.Split s sep` with a single-character separator (helper used by
the provider-URL parser). -/
def splitOnChar (s : Str) (sep : Char) : List Str := splitOnStr s [sep]

/-- First element of a `strings.Split` result (always non-empty in Go). -/
def headStr (l : List Str) : Str := l.headD []

end GoStr

/-! ## A model of `encoding/json` syntax

`decoder.Decode` reads the first JSON value of its input and succeeds even
when non-whitespace bytes follow it; `json.Unmarshal` additionally requires
that only whitespace follows the first value.  Both behaviours are used by
the Go code, so the parser below returns the unconsumed remainder.
Numbers are kept as their source text (the code always decodes with
`UseNumber`). -/

/-- Structured JSON values (numbers kept textually, as `json.Number`). -/
inductive JsonVal where
  | null : JsonVal
  | bool (b : Bool) : JsonVal
  | num (text : Str) : JsonVal
  | str (s : Str) : JsonVal
  | arr (elems : List JsonVal) : JsonVal
  | obj (fields : List (Str × JsonVal)) : JsonVal

namespace Json

def isWs (c : Char) : Bool := c = ' ' || c = '\t' || c = '\n' || c = '\r'

def skipWs : Str → Str
  | [] => []
  | c :: cs => if isWs c then skipWs cs else c :: cs

def isDigitCh (c : Char) : Bool := 48 ≤ c.toNat && c.toNat ≤ 57

/-- Value of a hexadecimal digit (codepoint ranges 0-9, a-f, A-F). -/
def hexVal (c : Char) : Option Nat :=
  let n := c.toNat
  if 48 ≤ n && n ≤ 57 then some (n - 48)
  else if 97 ≤ n && n ≤ 102 then some (n - 87)
  else if 65 ≤ n && n ≤ 70 then some (n - 55)
  else none

/-- Parse the body of a JSON string literal after the opening quote,
decoding escapes. -/
def parseStrBody : Str → Option (Str × Str)
  | [] => none
  | '"' :: rest => some ([], rest)
  | '\\' :: e :: rest =>
    (match e with
     | '"' => (parseStrBody rest).map (fun (s, r) => ('"' :: s, r))
     | '\\' => (parseStrBody rest).map (fun (s, r) => ('\\' :: s, r))
     | '/' => (parseStrBody rest).map (fun (s, r) => ('/' :: s, r))
     | 'b' => (parseStrBody rest).map (fun (s, r) => ('\x08' :: s, r))
     | 'f' => (parseStrBody rest).map (fun (s, r) => ('\x0c' :: s, r))
     | 'n' => (parseStrBody rest).map (fun (s, r) => ('\n' :: s, r))
     | 'r' => (parseStrBody rest).map (fun (s, r) => ('\r' :: s, r))
     | 't' => (parseStrBody rest).map (fun (s, r) => ('\t' :: s, r))
     | 'u' =>
       match rest with
       | a :: b :: c :: d :: rest2 =>
         match hexVal a, hexVal b, hexVal c, hexVal d with
         | some ha, some hb, some hc, some hd =>
           let n := ((ha * 16 + hb) * 16 + hc) * 16 + hd
           if h : n.isValidChar then
             (parseStrBody rest2).map (fun (s, r) => (Char.ofNat n :: s, r))
           else (parseStrBody rest2).map (fun (s, r) => ('�' :: s, r))
         | _, _, _, _ => none
       | _ => none
     | _ => none)
  | c :: rest =>
    if c.toNat < 0x20 then none
    else (parseStrBody rest).map (fun (s, r) => (c :: s, r))

/-- JSON number grammar: `-?(0|[1-9][0-9]*)(\.[0-9]+)?([eE][+-]?[0-9]+)?`.
Returns the number text and the remainder. -/
def parseNumber (s : Str) : Option (Str × Str) :=
  let (sign, s1) : Str × Str :=
    match s with
    | '-' :: rest => (['-'], rest)
    | _ => ([], s)
  match s1 with
  | [] => none
  | c :: rest =>
    if c = '0' then
      let (intPart, s2) : Str × Str := (['0'], rest)
      parseFracExp sign intPart s2
    else if isDigitCh c then
      let digits := rest.takeWhile isDigitCh
      let s2 := rest.dropWhile isDigitCh
      parseFracExp sign (c :: digits) s2
    else none
where
  parseFracExp (sign intPart : Str) (s : Str) : Option (Str × Str) :=
    let (fracPart, s3) : Str × Str :=
      match s with
      | '.' :: d :: rest =>
        if isDigitCh d then
          ('.' :: d :: rest.takeWhile isDigitCh, rest.dropWhile isDigitCh)
        else ([], s)
      | _ => ([], s)
    if (fracPart = [] && (match s with | '.' :: _ => true | _ => false)) then none
    else
      let (expPart, s4) : Str × Str :=
        match s3 with
        | e :: rest =>
          if e = 'e' || e = 'E' then
            match rest with
            | sg :: d :: rest2 =>
              if (sg = '+' || sg = '-') && isDigitCh d then
                (e :: sg :: d :: rest2.takeWhile isDigitCh, rest2.dropWhile isDigitCh)
              else if isDigitCh sg then
                (e :: sg :: rest.tail.takeWhile isDigitCh, rest.tail.dropWhile isDigitCh)
              else ([], s3)
            | [sg] =>
              if isDigitCh sg then (e :: [sg], []) else ([], s3)
            | [] => ([], s3)
          else ([], s3)
        | [] => ([], s3)
      if expPart = [] && (match s3 with | e :: _ => e = 'e' || e = 'E' | _ => false)
      then none
      else some (sign ++ intPart ++ fracPart ++ expPart, s4)

mutual

/-- Parse one JSON value (after arbitrary leading whitespace), returning the
value and the unconsumed remainder.  `fuel` bounds recursion depth and is
always instantiated generously enough to be irrelevant. -/
def parseVal (fuel : Nat) (s : Str) : Option (JsonVal × Str) :=
  match fuel with
  | 0 => none
  | fuel + 1 =>
    match skipWs s with
    | 'n' :: 'u' :: 'l' :: 'l' :: rest => some (.null, rest)
    | 't' :: 'r' :: 'u' :: 'e' :: rest => some (.bool true, rest)
    | 'f' :: 'a' :: 'l' :: 's' :: 'e' :: rest => some (.bool false, rest)
    | '"' :: rest => (parseStrBody rest).map (fun (str, r) => (.str str, r))
    | '[' :: rest =>
      (match skipWs rest with
       | ']' :: r2 => some (.arr [], r2)
       | _ => (parseArrItems fuel rest).map (fun (l, r) => (.arr l, r)))
    | '{' :: rest =>
      (match skipWs rest with
       | '}' :: r2 => some (.obj [], r2)
       | _ => (parseObjItems fuel rest).map (fun (l, r) => (.obj l, r)))
    | c :: rest =>
      if c = '-' || isDigitCh c then
        (parseNumber (c :: rest)).map (fun (t, r) => (.num t, r))
      else none
    | [] => none

/-- Parse the (non-empty) element list of an array, up to and including the
closing bracket. -/
def parseArrItems (fuel : Nat) (s : Str) : Option (List JsonVal × Str) :=
  match fuel with
  | 0 => none
  | fuel + 1 =>
    match parseVal fuel s with
    | none => none
    | some (v, rest) =>
      match skipWs rest with
      | ',' :: r2 => (parseArrItems fuel r2).map (fun (l, r) => (v :: l, r))
      | ']' :: r2 => some ([v], r2)
      | _ => none

/-- Parse the (non-empty) member list of an object, up to and including the
closing brace. -/
def parseObjItems (fuel : Nat) (s : Str) : Option (List (Str × JsonVal) × Str) :=
  match fuel with
  | 0 => none
  | fuel + 1 =>
    match skipWs s with
    | '"' :: rest =>
      match parseStrBody rest with
      | none => none
      | some (key, r1) =>
        match skipWs r1 with
        | ':' :: r2 =>
          match parseVal fuel r2 with
          | none => none
          | some (v, r3) =>
            match skipWs r3 with
            | ',' :: r4 => (parseObjItems fuel r4).map (fun (l, r) => ((key, v) :: l, r))
            | '}' :: r4 => some ([(key, v)], r4)
            | _ => none
        | _ => none
    | _ => none

end

/-- `decoder.Decode(&v)` on a fresh decoder: succeeds iff a leading JSON
value parses; trailing bytes are not inspected. -/
def decodeOk (s : Str) : Bool := (parseVal (2 * s.length + 4) s).isSome

/-- `json.Unmarshal` into `interface{}`: one JSON value followed only by
whitespace. -/
def unmarshalOk (s : Str) : Bool :=
  match parseVal (2 * s.length + 4) s with
  | some (_, rest) => skipWs rest = []
  | none => false

/-- Full parse of `s` as a single JSON value (`json.Unmarshal` view). -/
def parseDoc (s : Str) : Option JsonVal :=
  match parseVal (2 * s.length + 4) s with
  | some (v, rest) => if skipWs rest = [] then some v else none
  | none => none

end Json

/-! ## Go runtime values and `encoding/json` marshalling

`interface{}` values flowing between `convertJSONNumber` (web_server.go)
and the parameter codec (real_dubbo_client.go).  `map[string]interface{}`
is modelled as an association list with distinct keys; Go maps are
unordered and `json.Marshal` emits map keys in increasing byte order, which
the marshaller below reproduces by sorting.  `float64` values are
abstracted by their source numeral (no claim exercises them). -/

inductive GoVal where
  | vnull : GoVal
  | vbool (b : Bool) : GoVal
  | vint (n : Int) : GoVal
  | vfloat (text : Str) : GoVal
  | vnum (text : Str) : GoVal
  | vstr (s : Str) : GoVal
  | varr (elems : List GoVal) : GoVal
  | vobj (fields : List (Str × GoVal)) : GoVal

namespace GoJson

/-- Lexicographic byte-order `≤` on Go strings (`sort.Strings` order). -/
def strLeB : Str → Str → Bool
  | [], _ => true
  | _ :: _, [] => false
  | a :: as2, b :: bs =>
    if a = b then strLeB as2 bs else decide (a < b)

/-- Insertion into a key-sorted association list. -/
def insertByKey (p : Str × α) : List (Str × α) → List (Str × α)
  | [] => [p]
  | q :: rest =>
    if strLeB p.1 q.1 then p :: q :: rest else q :: insertByKey p rest

/-- Sort an association list by key (Go's map-key ordering in
`json.Marshal`). -/
def sortByKey : List (Str × α) → List (Str × α)
  | [] => []
  | p :: rest => insertByKey p (sortByKey rest)

def hexDigit (n : Nat) : Char :=
  if n < 10 then Char.ofNat ('0'.toNat + n) else Char.ofNat ('a'.toNat + n - 10)

/-- Per-character escaping of Go's `encoding/json` string encoder (HTML
escaping on, as `json.Marshal` uses by default). -/
def escapeChar (c : Char) : Str :=
  if c = '"' then ['\\', '"']
  else if c = '\\' then ['\\', '\\']
  else if c = '\n' then ['\\', 'n']
  else if c = '\r' then ['\\', 'r']
  else if c = '\t' then ['\\', 't']
  else if c = '<' then "\\u003c".data
  else if c = '>' then "\\u003e".data
  else if c = '&' then "\\u0026".data
  else if c.toNat < 0x20 then
    ['\\', 'u', '0', '0', hexDigit (c.toNat / 16), hexDigit (c.toNat % 16)]
  else if c.toNat = 0x2028 then "\\u2028".data
  else if c.toNat = 0x2029 then "\\u2029".data
  else [c]

def goEscape (s : Str) : Str := (s.map escapeChar).flatten

/-- `json.Marshal` of a Go `string` value. -/
def goQuote (s : Str) : Str := '"' :: (goEscape s ++ ['"'])

/-- Decimal rendering of an integer (`fmt.Sprintf("%v", n)` for Go integer
kinds, and `json.Marshal` of an integer). -/
def intToStr (i : Int) : Str :=
  if i < 0 then '-' :: Nat.toDigits 10 i.natAbs else Nat.toDigits 10 i.natAbs

def commaJoin (l : List Str) : Str := (l.intersperse [',']).flatten

mutual

/-- `json.Marshal` on the modelled `interface{}` values. -/
def jsonMarshal : GoVal → Str
  | .vnull => "null".data
  | .vbool true => "true".data
  | .vbool false => "false".data
  | .vint n => intToStr n
  | .vfloat t => t
  | .vnum t => t
  | .vstr s => goQuote s
  | .varr l => '[' :: (commaJoin (jsonMarshalElems l) ++ [']'])
  | .vobj fs =>
    '{' :: (commaJoin ((sortByKey (jsonMarshalPairs fs)).map
      (fun kv => goQuote kv.1 ++ ':' :: kv.2)) ++ ['}'])

def jsonMarshalElems : List GoVal → List Str
  | [] => []
  | v :: rest => jsonMarshal v :: jsonMarshalElems rest

def jsonMarshalPairs : List (Str × GoVal) → List (Str × Str)
  | [] => []
  | (k, v) :: rest => (k, jsonMarshal v) :: jsonMarshalPairs rest

end

end GoJson

/-! ## ParameterCodec: `formatParameters` and friends
(real_dubbo_client.go, lines 1231-1333) and the ingestion-side
`convertJSONNumber` (web_server.go, lines 716-766). -/

namespace Codec

open GoStr GoJson

/-- The `"class":` substring that `formatSingleParameter` looks for in
string arguments. -/
def classKeyPat : Str := ('"' :: ("class".data ++ ['"', ':']))

/-- `obj["class"]` presence check of `formatObjectParameter`. -/
def hasClassKey (fields : List (Str × GoVal)) : Bool :=
  fields.any (fun kv => kv.1 = ("class".data : Str))

/-- `formatObjectParameter` (real_dubbo_client.go:1298).  Both branches of
the Go `if` call `json.Marshal(obj)`; the map key order on the wire is
therefore `json.Marshal`'s sorted key order. -/
def formatObjectParameter (fields : List (Str × GoVal)) : Str :=
  if hasClassKey fields then
    -- dubbo object form: json.Marshal of the map
    jsonMarshal (.vobj fields)
  else
    -- plain object: json.Marshal of the map
    jsonMarshal (.vobj fields)

/-- `strings.Join(l, ", ")`. -/
def joinCommaSpace (l : List Str) : Str := (l.intersperse (", ".data)).flatten

mutual

/-- `formatSingleParameter` (real_dubbo_client.go:1250).  `json.Marshal` of
a Go string never fails, so the Sprintf fallback of the string case is
unreachable; the `default` case reaches `json.Marshal` for `json.Number`
values, which emit their raw text. -/
def formatSingleParameter : GoVal → Str
  | .vnull => "null".data
  | .vstr s =>
    if containsSub s classKeyPat && Json.decodeOk s then s
    else goQuote s
  | .vint n => intToStr n
  | .vfloat t => t
  | .vbool true => "true".data
  | .vbool false => "false".data
  | .vobj fields => formatObjectParameter fields
  | .varr [] => "[]".data
  | .varr (v :: rest) =>
    '[' :: (joinCommaSpace (formatSingleParameter v :: formatElems rest) ++ [']'])
  | .vnum t => t

def formatElems : List GoVal → List Str
  | [] => []
  | v :: rest => formatSingleParameter v :: formatElems rest

end

/-- `formatArrayParameter` (real_dubbo_client.go:1318); `formatSingleParameter`
on an array value unfolds to exactly this. -/
def formatArrayParameter (elems : List GoVal) : Str :=
  match elems with
  | [] => "[]".data
  | _ => '[' :: (joinCommaSpace (formatElems elems) ++ [']'])

/-- `formatParameters` (real_dubbo_client.go:1232). -/
def formatParameters (params : List GoVal) : Str :=
  match params with
  | [] => []
  | _ => joinCommaSpace (params.map formatSingleParameter)

/-- Modelled from the spec (amended claim): a string argument is emitted
JSON-quoted and escaped, except when it contains the substring `"class":`
and a leading JSON value of it decodes (trailing content unchecked), in
which case the raw string goes on the wire verbatim. -/
def formatStringSpec (s : Str) : Str :=
  if containsSub s classKeyPat && Json.decodeOk s then s else goQuote s

/-- `strconv.ParseInt(s, 10, 64)` as used by `json.Number.Int64`. -/
def goParseInt64 (s : Str) : Option Int :=
  let (neg, digits) : Bool × Str :=
    match s with
    | '-' :: rest => (true, rest)
    | '+' :: rest => (false, rest)
    | rest => (false, rest)
  if digits = [] || !(digits.all Json.isDigitCh) then none
  else
    let n : Nat := digits.foldl (fun a c => a * 10 + (c.toNat - '0'.toNat)) 0
    let v : Int := if neg then -(n : Int) else (n : Int)
    if v < -(2 ^ 63) || v > 2 ^ 63 - 1 then none else some v

/-- `json.Number.Float64` acceptance (`strconv.ParseFloat`); the resulting
float value itself is abstracted by the numeral text. -/
def goParseFloatOk (s : Str) : Bool :=
  match Json.parseNumber s with
  | some (t, rest) => t = s && rest = []
  | none => false

mutual

/-- `convertJSONNumber` (web_server.go:725): ingestion-side normalization
that keeps oversized integers textual. -/
def convertJSONNumber : GoVal → GoVal
  | .vnum numStr =>
    if numStr.length > 15 then
      -- more than 15 characters: keep the original decimal text
      .vstr numStr
    else
      (match goParseInt64 numStr with
       | some intVal =>
         if intVal > 9007199254740991 || intVal < -9007199254740991 then
           .vstr numStr
         else .vint intVal
       | none =>
         if goParseFloatOk numStr then .vfloat numStr else .vstr numStr)
  | .varr l => .varr (convertList l)
  | .vobj fields => .vobj (convertFields fields)
  | v => v

def convertList : List GoVal → List GoVal
  | [] => []
  | v :: rest => convertJSONNumber v :: convertList rest

def convertFields : List (Str × GoVal) → List (Str × GoVal)
  | [] => []
  | (k, v) :: rest => (k, convertJSONNumber v) :: convertFields rest

end

end Codec

/-! ## ResponseAssembler / ResultExtractor
(real_dubbo_client.go: the read loop of `GenericInvoke` (799-837), the
error check and payload extraction (856-885), `cleanResponse` (1336),
`fixIncompleteJSON` (1488), `extractLargestJSON` (1532) and the
`ResponseCompletionDetector` (1599-1721)). -/

namespace Resp

open GoStr

def dubboMark : Str := "dubbo>".data
def elapsedMark : Str := "elapsed:".data
def nullTok : Str := "null".data

/-- The brace-counting scan of `fixIncompleteJSON`: index of the position
closing the last complete `\x7b...\x7d` object (string literals are not
special-cased), `-1` when none. -/
def fixScan : Str → Nat → Int → Nat → Bool → Int
  | [], _, last, _, _ => last
  | ch :: rest, i, last, braceCount, inObject =>
    if ch = '{' then
      if !inObject then fixScan rest (i + 1) last 1 true
      else fixScan rest (i + 1) last (braceCount + 1) inObject
    else if ch = '}' then
      if inObject then
        if braceCount = 1 then fixScan rest (i + 1) (Int.ofNat i) 0 false
        else fixScan rest (i + 1) last (braceCount - 1) inObject
      else fixScan rest (i + 1) last braceCount inObject
    else fixScan rest (i + 1) last braceCount inObject

/-- `fixIncompleteJSON` (real_dubbo_client.go:1488): truncate to the last
complete object (`lastCompleteIndex`), append `]`, keep the result only if
it decodes. -/
def fixIncompleteJSON (s : Str) : Str :=
  if fixScan s 0 (-1) 0 false > 0 then
    if Json.decodeOk (s.take ((fixScan s 0 (-1) 0 false).toNat + 1) ++ [']']) then
      s.take ((fixScan s 0 (-1) 0 false).toNat + 1) ++ [']']
    else []
  else []

/-- Bracket-matching inner loop of `extractLargestJSON`: absolute index of
the balancing close character, scanning from `j` with open-count `cnt`. -/
def findMatchAux (openCh closeCh : Char) : Str → Nat → Nat → Option Nat
  | [], _, _ => none
  | c :: rest, j, cnt =>
    let cnt2 := if c = openCh then cnt + 1 else if c = closeCh then cnt - 1 else cnt
    if cnt2 = 0 then some j else findMatchAux openCh closeCh rest (j + 1) cnt2

def findMatch (openCh closeCh : Char) (s : Str) (i : Nat) : Option Nat :=
  findMatchAux openCh closeCh (s.drop (i + 1)) (i + 1) 1

/-- One pass of `extractLargestJSON`'s candidate collection (arrays with
`[`/`]`, then objects with `\x7b`/`\x7d`), keeping candidates whose leading
JSON value decodes. -/
def candidatesFor (openCh closeCh : Char) (s : Str) : List Str :=
  (List.range s.length).filterMap (fun i =>
    if s.get? i = some openCh then
      match findMatch openCh closeCh s i with
      | some j =>
        let cand := (s.drop i).take (j - i + 1)
        if Json.decodeOk cand then some cand else none
      | none => none
    else none)

/-- `extractLargestJSON` (real_dubbo_client.go:1532): longest decodable
balanced span, arrays scanned before objects, strictly-longer wins. -/
def extractLargestJSON (s : Str) : Str :=
  let candidates := candidatesFor '[' ']' s ++ candidatesFor '{' '}' s
  candidates.foldl (fun longest c => if c.length > longest.length then c else longest) []

/-- `cleanResponse` stage 1: the `dubbo>` branch (lines 1338-1360); `some`
models an early `return`. -/
def cleanStage1 (t : Str) : Option Str :=
  if containsSub t dubboMark then
    let parts := splitOnStr t dubboMark
    -- len(parts) > 0 always holds
    let content0 := trim (headStr parts)
    let content :=
      if containsSub content0 elapsedMark then
        trim (headStr (splitOnStr content0 elapsedMark))
      else content0
    if content = nullTok then some nullTok
    else if Json.unmarshalOk content then some content
    else none
  else none

/-- `cleanResponse` stage 2: direct parse of a leading-`[` response, with
array repair on failure (lines 1363-1377). -/
def cleanStage2 (t : Str) : Option Str :=
  if startsWith (trim t) (['['] : Str) then
    if Json.decodeOk t then some t
    else
      let fixed := fixIncompleteJSON t
      if fixed ≠ [] then some fixed else none
  else none

/-- `cleanResponse` stage 3: largest balanced JSON span (lines 1380-1387;
the array test inside is redundant, both branches return the span). -/
def cleanStage3 (t : Str) : Option Str :=
  let jsonResult := extractLargestJSON t
  if jsonResult ≠ [] then some jsonResult else none

/-- The line-oriented scan of `cleanResponse` (lines 1390-1470), returning
an early result or the final `(foundJSONStart, builder)` state. -/
def lineScan : List Str → Bool → Str → Str → Option Str × (Bool × Str)
  | [], found, _, acc => (none, (found, acc))
  | l :: rest, found, sc, acc =>
    let line := trim l
    if line = [] || startsWith line elapsedMark || startsWith line dubboMark then
      lineScan rest found sc acc
    else if !found && (startsWith line (['{'] : Str) || startsWith line (['['] : Str)) then
      let sc2 : Str := if startsWith line (['{'] : Str) then ['{'] else ['[']
      lineScan rest true sc2 (acc ++ line)
    else
      let acc2 := if found then acc ++ line else acc
      let builtRet : Option Str :=
        if found && ((sc = (['{'] : Str) && endsWith line (['}'] : Str)) ||
                     (sc = (['['] : Str) && endsWith line ([']'] : Str))) then
          if Json.decodeOk acc2 then some acc2 else none
        else none
      match builtRet with
      | some r => (some r, (found, acc2))
      | none =>
        if startsWith line (['{'] : Str) && endsWith line (['}'] : Str) &&
            Json.decodeOk line then
          (some line, (found, acc2))
        else if startsWith line (['['] : Str) && endsWith line ([']'] : Str) &&
            Json.decodeOk line then
          (some line, (found, acc2))
        else if startsWith line (['"'] : Str) && endsWith line (['"'] : Str) &&
            line.length > 2 then
          let unquoted := (line.drop 1).take (line.length - 2)
          if Json.decodeOk unquoted then (some unquoted, (found, acc2))
          else lineScan rest found sc acc2
        else lineScan rest found sc acc2

/-- `cleanResponse` (real_dubbo_client.go:1336). -/
def cleanResponse (t : Str) : Str :=
  match cleanStage1 t with
  | some r => r
  | none =>
    match cleanStage2 t with
    | some r => r
    | none =>
      match cleanStage3 t with
      | some r => r
      | none =>
        let lines := splitOnStr t (['\n'] : Str)
        match lineScan lines false [] [] with
        | (some r, _) => r
        | (none, (found, acc)) =>
          if found && Json.decodeOk acc then acc else t

/-- The error-marker check of `GenericInvoke` (lines 857-861). -/
def containsErrorPhrase (t : Str) : Bool :=
  containsSub t ("Failed to invoke".data) ||
  containsSub t ("error".data) ||
  containsSub t ("No such service".data) ||
  containsSub t ("No provider".data) ||
  containsSub t ("Service not found".data)

def invokeFailedMsg : Str := "调用失败: ".data
def noValidRespMsg : Str := "调用失败，未获得有效响应: ".data

/-- The post-read processing of `GenericInvoke` (lines 856-885): error
phrases short-circuit to a failure carrying the decoded text; otherwise the
cleaned response is returned, unless it still carries console output and is
not valid JSON. -/
def genericInvokeExtract (t : Str) : Except Str Str :=
  if containsErrorPhrase t then .error (invokeFailedMsg ++ t)
  else
    let cleaned := cleanResponse t
    if cleaned ≠ nullTok &&
        (containsSub cleaned elapsedMark || containsSub cleaned dubboMark) then
      if !(Json.unmarshalOk cleaned) then .error (noValidRespMsg ++ cleaned)
      else .ok cleaned
    else .ok cleaned

end Resp

/-! ## The response read loop of `GenericInvoke`
(real_dubbo_client.go:799-837).  The socket is abstracted by a script of
read outcomes: a data chunk (possibly empty, modelling `n == 0`), a
deadline expiry (`net.Error` with `Timeout()`), or another read error. -/

namespace ReadLoop

open GoStr Resp

inductive ReadEvent where
  | chunk (s : Str) : ReadEvent
  | timeoutErr : ReadEvent
  | readErr : ReadEvent

def timeoutMsg : Str := "读取响应超时".data
def readFailMsg : Str := "读取响应失败".data

/-- One call's read loop: accumulate chunks until an exit condition.
`some (.ok buf)` models `break` (the accumulated response proceeds to
extraction), `some (.error m)` models an error return, `none` means the
script ended with the loop still reading. -/
def readLoop : List ReadEvent → Str → Option (Except Str Str)
  | [], _ => none
  | .timeoutErr :: _, buf =>
    if buf.length > 0 then some (.ok buf) else some (.error timeoutMsg)
  | .readErr :: _, buf =>
    if buf.length > 0 then some (.ok buf) else some (.error readFailMsg)
  | .chunk s :: rest, buf =>
    if s.length = 0 then some (.ok buf)
    else
      let buf2 := buf ++ s
      if containsSub buf2 dubboMark || containsSub buf2 elapsedMark then
        some (.ok buf2)
      else readLoop rest buf2

end ReadLoop

/-! ## ZooKeeper registry resolution
(`scanZooKeeperServices`, real_dubbo_client.go:938;
`getProviderFromZooKeeper` / `parseProviderURL`, 614-685).  The
coordination store is abstracted as the tree of nodes the walk reads;
node reads are error-free (a per-node read error merely skips the child in
the Go code). -/

namespace Zk

open GoStr

/-- A ZooKeeper subtree: the children of a node, each a named subtree. -/
inductive ZkTree where
  | node (children : List (Str × ZkTree)) : ZkTree

def childrenOf : ZkTree → List (Str × ZkTree)
  | .node cs => cs

instance : Inhabited ZkTree := ⟨.node []⟩

/-- `conn.Exists(childPath + "/providers")`. -/
def hasProvidersChild (t : ZkTree) : Bool :=
  (childrenOf t).any (fun c => c.1 = ("providers".data : Str))

mutual

/-- `scanZooKeeperServices` (real_dubbo_client.go:938) on an existing base
node: a child with a `providers` child is emitted as a service, any other
child is recursed into. -/
def scanZkServices : ZkTree → List Str
  | .node cs => scanZkChildren cs

def scanZkChildren : List (Str × ZkTree) → List Str
  | [] => []
  | (name, t) :: rest =>
    (if hasProvidersChild t then [name] else scanZkServices t) ++ scanZkChildren rest

end

/-- `url.QueryUnescape`: `%XX` hex escapes and `+` decoded. -/
def queryUnescape : Str → Option Str
  | [] => some []
  | '%' :: a :: b :: rest =>
    match Json.hexVal a, Json.hexVal b with
    | some ha, some hb => (queryUnescape rest).map (fun r => Char.ofNat (16 * ha + hb) :: r)
    | _, _ => none
  | '%' :: _ => none
  | '+' :: rest => (queryUnescape rest).map (fun r => ' ' :: r)
  | c :: rest => (queryUnescape rest).map (fun r => c :: r)

/-- `parseProviderURL` (real_dubbo_client.go:665): percent-decode, require
the `dubbo://` scheme, return the `host:port` part before the first slash. -/
def parseProviderURL (providerURL : Str) : Except Str Str :=
  match queryUnescape providerURL with
  | none => .error ("URL解码失败".data)
  | some decodedURL =>
    if startsWith decodedURL ("dubbo://".data) then
      let urlPath := decodedURL.drop ("dubbo://".data).length
      let parts := splitOnChar urlPath '/'
      -- len(parts) > 0 always holds for strings.Split
      .ok (headStr parts)
    else .error ("无效的提供者URL格式: ".data ++ decodedURL)

/-- The provider-selection core of `getProviderFromZooKeeper`
(real_dubbo_client.go:614), given the children of the requested service's
`providers` node. -/
def getProviderFromZk (providers : List Str) : Except Str Str :=
  match providers with
  | [] => .error ("没有可用的提供者".data)
  | providerURL :: _ => parseProviderURL providerURL

/-- The specification's reading of the catalog walk: a name is emitted iff
it names a child holding a `providers` child, reachable from the base by
descending only through children that are not themselves services. -/
inductive IsServiceIn : ZkTree → Str → Prop
  | here {cs : List (Str × ZkTree)} {name : Str} {t : ZkTree} :
      (name, t) ∈ cs → hasProvidersChild t = true → IsServiceIn (.node cs) name
  | deeper {cs : List (Str × ZkTree)} {name s : Str} {t : ZkTree} :
      (name, t) ∈ cs → hasProvidersChild t = false → IsServiceIn t s →
      IsServiceIn (.node cs) s

end Zk

/-! ## Nacos registry client (src/unnamed/part_001)
HTTP transport is abstracted by the ordered list of per-endpoint outcomes
observed by the probe loops.  Struct unmarshalling follows Go
`encoding/json` semantics: `null` or a JSON object populates a struct
(unknown members ignored, absent members left at their zero values), any
other top-level value or a member of the wrong type is an error; numbers
destined for `int` fields are parsed from their literal text. -/

namespace Nacos

open GoStr

/-- The two fields of `NamespaceInfo` the resolution logic reads. -/
structure NsInfo where
  namespaceId : Str
  showName : Str

/-- Unmarshal a JSON member into a Go `int` field: absent and `null` leave
zero, a number must parse as an integer. -/
def intField (fields : List (Str × JsonVal)) (key : Str) : Option Int :=
  match (fields.find? (fun kv => kv.1 = key)).map Prod.snd with
  | none => some 0
  | some .null => some 0
  | some (.num t) => Codec.goParseInt64 t
  | some _ => none

/-- Unmarshal a JSON member into a Go `string` field. -/
def strField (fields : List (Str × JsonVal)) (key : Str) : Option Str :=
  match (fields.find? (fun kv => kv.1 = key)).map Prod.snd with
  | none => some []
  | some .null => some []
  | some (.str s) => some s
  | some _ => none

/-- Unmarshal a JSON array into `[]string`. -/
def strElems : List JsonVal → Option (List Str)
  | [] => some []
  | .str s :: rest => (strElems rest).map (fun l => s :: l)
  | .null :: rest => (strElems rest).map (fun l => [] :: l)
  | _ => none

/-- Unmarshal a JSON member into a `[]string` field. -/
def strListField (fields : List (Str × JsonVal)) (key : Str) : Option (List Str) :=
  match (fields.find? (fun kv => kv.1 = key)).map Prod.snd with
  | none => some []
  | some .null => some []
  | some (.arr l) => strElems l
  | some _ => none

/-- `json.Unmarshal(body, &NacosServiceList{})` — the 1.x envelope
`\x7b count, doms \x7d`. -/
def parseServiceList1x (body : Str) : Option (Int × List Str) :=
  match Json.parseDoc body with
  | some .null => some (0, [])
  | some (.obj fs) =>
    match intField fs ("count".data), strListField fs ("doms".data) with
    | some c, some doms => some (c, doms)
    | _, _ => none
  | _ => none

/-- The 2.x envelope `\x7b code, message, data: \x7b count, services \x7d \x7d`. -/
def parseServiceList2x (body : Str) : Option (Int × Int × List Str) :=
  match Json.parseDoc body with
  | some .null => some (0, 0, [])
  | some (.obj fs) =>
    match intField fs ("code".data), strField fs ("message".data) with
    | some code, some _ =>
      (match (fs.find? (fun kv => kv.1 = ("data".data : Str))).map Prod.snd with
       | none => some (code, 0, [])
       | some .null => some (code, 0, [])
       | some (.obj dfs) =>
         match intField dfs ("count".data), strListField dfs ("services".data) with
         | some c, some svcs => some (code, c, svcs)
         | _, _ => none
       | some _ => none)
    | _, _ => none
  | _ => none

/-- Unmarshal one element of the `data` array into `NamespaceInfo`
(the numeric members are type-checked, only the two strings are used). -/
def parseNsInfo : JsonVal → Option NsInfo
  | .null => some ⟨[], []⟩
  | .obj fs =>
    match strField fs ("namespace".data), strField fs ("namespaceShowName".data),
        intField fs ("quota".data), intField fs ("configCount".data),
        intField fs ("type".data) with
    | some nsid, some show2, some _, some _, some _ => some ⟨nsid, show2⟩
    | _, _, _, _, _ => none
  | _ => none

def parseNsInfos : List JsonVal → Option (List NsInfo)
  | [] => some []
  | v :: rest =>
    match parseNsInfo v, parseNsInfos rest with
    | some i, some l => some (i :: l)
    | _, _ => none

/-- The namespace-list envelope `\x7b code, data: [NamespaceInfo] \x7d`
(`GetNamespaces`, part_001:333-344; the `code` member is type-checked but
its value is never inspected). -/
def parseNsEnvelope (body : Str) : Option (List NsInfo) :=
  match Json.parseDoc body with
  | some .null => some []
  | some (.obj fs) =>
    match intField fs ("code".data) with
    | none => none
    | some _ =>
      match (fs.find? (fun kv => kv.1 = ("data".data : Str))).map Prod.snd with
      | none => some []
      | some .null => some []
      | some (.arr l) => parseNsInfos l
      | some _ => none
  | _ => none

/-- Outcome of one HTTP endpoint probe. -/
inductive HttpResult where
  | netError : HttpResult
  | bodyError (code : Nat) : HttpResult
  | resp (code : Nat) (body : Str) : HttpResult

/-- `getRealNamespaceId` (part_001:252): the display-name to internal-id
translation, with the `GetNamespaces` fetch abstracted by its outcome.
Returns the chosen namespace id and the error value (`nil` = `none`). -/
def getRealNamespaceId (ns : Str) (fetched : Except Str (List NsInfo)) :
    Str × Option Str :=
  if ns = [] || ns = ("public".data : Str) then (("public".data : Str), none)
  else if ns.length > 30 && containsSub ns (['-'] : Str) then (ns, none)
  else
    match fetched with
    | .error e => (ns, some e)
    | .ok nss =>
      match nss.find? (fun i => i.showName = ns) with
      | some i => (i.namespaceId, none)
      | none => (ns, none)

/-- `GetServiceList`'s use of the translation (part_001:139-144): an
errored translation falls back to the configured value; the catalog call
itself proceeds either way. -/
def serviceListNamespace (ns : Str) (fetched : Except Str (List NsInfo)) : Str :=
  match getRealNamespaceId ns fetched with
  | (v, none) => v
  | (_, some _) => ns

/-- Modelled from the spec (amended): the namespace resolution order ——
(1) an empty configured namespace becomes the literal default `public` and
the literal default is used unmodified; (2) a value already in the
backend's native identifier format (longer than 30 bytes and hyphenated)
is used unmodified; (3) otherwise the fetched namespace list is searched
for a matching display name; (4) on no match — or if the fetch itself
failed — the original string is used, and only the fetch error is
reported upward. -/
def namespaceResolutionSpec (ns : Str) (fetched : Except Str (List NsInfo)) :
    Str × Option Str :=
  if ns = [] then (("public".data : Str), none)
  else if ns = ("public".data : Str) then (ns, none)
  else if ns.length > 30 && containsSub ns (['-'] : Str) then (ns, none)
  else
    match fetched with
    | .error e => (ns, some e)
    | .ok nss =>
      match nss.find? (fun i => i.showName = ns) with
      | some i => (i.namespaceId, none)
      | none => (ns, none)

/-- The endpoint-probe loop of `GetServiceList` (part_001:161-248), over
the per-endpoint outcomes in the endpoints' fixed order. -/
def getServiceListProbe : List HttpResult → Except Str (Int × List Str)
  | [] => .error ("所有API端点都调用失败".data)
  | .netError :: rest => getServiceListProbe rest
  | .bodyError _ :: rest => getServiceListProbe rest
  | .resp code body :: rest =>
    if code = 200 then
      match parseServiceList1x body with
      | some r => .ok r
      | none =>
        match parseServiceList2x body with
        | some (code2, c, svcs) =>
          if code2 = 0 then .ok (c, svcs)
          -- parse failure of both envelopes: empty result, nil error
          else .ok (0, [])
        | none => .ok (0, [])
    else getServiceListProbe rest

/-- The endpoint-probe loop of `GetNamespaces` (part_001:292-345). -/
def getNamespacesProbe : List HttpResult → Except Str (List NsInfo)
  | [] => .error ("所有命名空间API端点都调用失败".data)
  | .netError :: rest => getNamespacesProbe rest
  | .bodyError _ :: rest => getNamespacesProbe rest
  | .resp code body :: rest =>
    if code = 502 then getNamespacesProbe rest
    else if code ≠ 200 then getNamespacesProbe rest
    else
      match parseNsEnvelope body with
      | none => getNamespacesProbe rest
      | some l => .ok l

end Nacos

/-! ## ResponseCompletionDetector (real_dubbo_client.go:1599-1721). -/

namespace Detector

open GoStr Resp

/-- `strings.Index s c` (first occurrence of a one-byte substring). -/
def idxOf (s : Str) (c : Char) : Option Nat := s.findIdx? (· = c)

/-- `strings.LastIndex s c`. -/
def lastIdxOf (s : Str) (c : Char) : Option Nat :=
  (s.reverse.findIdx? (· = c)).map (fun k => s.length - 1 - k)

/-- `extractPotentialJSON` (line 1675): outermost first-`[`…last-`]` span,
else first-`\x7b`…last-`\x7d` span. -/
def extractPotentialJSON (t : Str) : Str :=
  match idxOf t '[', lastIdxOf t ']' with
  | some startIdx, some endIdx =>
    if startIdx < endIdx then (t.drop startIdx).take (endIdx - startIdx + 1)
    else extractPotentialJSONObj t
  | _, _ => extractPotentialJSONObj t
where
  extractPotentialJSONObj (t : Str) : Str :=
    match idxOf t '{', lastIdxOf t '}' with
    | some startIdx, some endIdx =>
      if startIdx < endIdx then (t.drop startIdx).take (endIdx - startIdx + 1)
      else []
    | _, _ => []

/-- `validateJSONCompleteness` (line 1694): a fresh decoder's `Decode`. -/
def validateJSONCompleteness (jsonContent : Str) : Bool := Json.decodeOk jsonContent

/-- `hasValidJSONStructure` (line 1663). -/
def hasValidJSONStructure (t : Str) : Bool :=
  let jsonContent := extractPotentialJSON t
  if jsonContent = [] then false else validateJSONCompleteness jsonContent

/-- `hasProtocolCompletion` (line 1653). -/
def hasProtocolCompletion (t : Str) : Bool :=
  containsSub t dubboMark && (containsSub t elapsedMark || containsSub t ("ms.".data))

/-- The detector's `errorMarkers` (line 1614). -/
def errorMarkers : List Str :=
  [("Failed to invoke".data), ("No such service".data), ("No provider".data),
   ("Connection refused".data), ("Timeout".data), ("Exception".data)]

/-- `hasErrorCompletion` (line 1702). -/
def hasErrorCompletion (t : Str) : Bool := errorMarkers.any (fun m => containsSub t m)

/-- `hasSpecialResponseCompletion` (line 1712): with the prompt marker
removed everywhere and the rest trimmed, a literal `null` (or nothing at
all) signals a complete business-null response. -/
def hasSpecialResponseCompletion (t : Str) : Bool :=
  if containsSub t dubboMark then
    let cleanedResponse := trim (replaceAll t dubboMark [])
    cleanedResponse = nullTok || cleanedResponse = []
  else false

/-- `isResponseComplete` (line 1626). -/
def isResponseComplete (t : Str) : Bool :=
  if hasProtocolCompletion t then true
  else if hasValidJSONStructure t then true
  else if hasErrorCompletion t then true
  else if hasSpecialResponseCompletion t then true
  else false

end Detector

/-! ## Observables for the precision claim -/

namespace Codec

/-- The digit part of a decimal integer string (sign stripped). -/
def decDigits : Str → Str
  | '-' :: ds => ds
  | ds => ds

/-- `s` is a decimal integer string: an optional `-` followed by at least
one digit. -/
def isDecIntStr (s : Str) : Bool :=
  decide (decDigits s ≠ []) && (decDigits s).all Json.isDigitCh

/-- Number of decimal digits of a decimal integer string. -/
def decDigitCount (s : Str) : Nat := (decDigits s).length

/-- Magnitude of a decimal integer string. -/
def decMagnitude (s : Str) : Nat :=
  (decDigits s).foldl (fun a c => a * 10 + (c.toNat - '0'.toNat)) 0

end Codec

/-! ## Helper lemmas -/

section StrLemmas

open GoStr

theorem splitOnceAux_post_lt (s pat pre post : Str) (hp : pat ≠ [])
    (h : splitOnceAux s pat = some (pre, post)) : post.length < s.length := by
  induction s generalizing pre with
  | nil => simp [splitOnceAux] at h
  | cons c cs ih =>
    rw [splitOnceAux] at h
    by_cases hpre : startsWith (c :: cs) pat = true
    · simp [hpre] at h
      have hplen : 0 < pat.length := by cases pat <;> simp_all
      obtain ⟨_, hpost⟩ := h
      subst hpost
      simp [List.length_drop]
      omega
    · simp [hpre] at h
      cases h2 : splitOnceAux cs pat with
      | none => rw [h2] at h; simp at h
      | some pr =>
        rw [h2] at h
        obtain ⟨pre2, post2⟩ := pr
        simp at h
        obtain ⟨_, hpost⟩ := h
        subst hpost
        have := ih pre2 h2
        simp
        omega

theorem startsWith_refl_append (p t : Str) : startsWith (p ++ t) p = true := by
  induction p with
  | nil => cases t <;> simp [startsWith]
  | cons c cs ih => simp [startsWith, ih]

/-- If a pattern begins with a character that never occurs in `s`, the
pattern does not occur in `s`. -/
theorem containsSub_eq_false_of_head_notMem (s : Str) (p : Char) (ps : Str)
    (h : ∀ c ∈ s, c ≠ p) : containsSub s (p :: ps) = false := by
  induction s with
  | nil => simp [containsSub]
  | cons c cs ih =>
    rw [containsSub]
    have hc : c ≠ p := h c (by simp)
    have hrec := ih (fun d hd => h d (by simp [hd]))
    simp [startsWith, hc, hrec]

end StrLemmas

/-- In every branch of `getRealNamespaceId` that reports an error, the
returned namespace is the configured one. -/
theorem Nacos.getRealNamespaceId_error_keeps_ns (ns v e : Str)
    (fetched : Except Str (List Nacos.NsInfo))
    (h : Nacos.getRealNamespaceId ns fetched = (v, some e)) : v = ns := by
  unfold Nacos.getRealNamespaceId at h
  split at h
  · simp at h
  · split at h
    · simp at h
    · rcases fetched with e2 | nss
      · simp at h
        exact h.1.symm
      · rcases hfind : nss.find? (fun i => i.showName = ns) with _ | i <;>
          simp [hfind] at h

section PrecisionLemmas

open GoStr GoJson Codec

theorem isDigitCh_toNat_bounds (c : Char) (h : Json.isDigitCh c = true) :
    48 ≤ c.toNat ∧ c.toNat ≤ 57 := by
  simp [Json.isDigitCh] at h
  exact h

/-- A run of `k` decimal digits denotes a value below `10 ^ k`
(accumulator-generalized form of the `decMagnitude` fold). -/
theorem digitsFold_lt (ds : Str) (acc : Nat)
    (h : ∀ c ∈ ds, Json.isDigitCh c = true) :
    ds.foldl (fun a c => a * 10 + (c.toNat - '0'.toNat)) acc <
      (acc + 1) * 10 ^ ds.length := by
  induction ds generalizing acc with
  | nil => simp
  | cons c cs ih =>
    have hc := isDigitCh_toNat_bounds c (h c (by simp))
    have hd : c.toNat - '0'.toNat ≤ 9 := by
      have : '0'.toNat = 48 := by decide
      omega
    have step := ih (acc * 10 + (c.toNat - '0'.toNat))
      (fun d hd2 => h d (by simp [hd2]))
    calc (c :: cs).foldl (fun a c => a * 10 + (c.toNat - '0'.toNat)) acc
        = cs.foldl (fun a c => a * 10 + (c.toNat - '0'.toNat))
            (acc * 10 + (c.toNat - '0'.toNat)) := by simp
      _ < (acc * 10 + (c.toNat - '0'.toNat) + 1) * 10 ^ cs.length := step
      _ ≤ ((acc + 1) * 10) * 10 ^ cs.length := by
          have hmul : acc * 10 + (c.toNat - '0'.toNat) + 1 ≤ (acc + 1) * 10 := by omega
          exact Nat.mul_le_mul_right _ hmul
      _ = (acc + 1) * 10 ^ (cs.length + 1) := by ring
      _ = (acc + 1) * 10 ^ (c :: cs).length := by simp

/-- Every character of a decimal integer string is a dash or a digit. -/
theorem isDecIntStr_chars (s : Str) (h : isDecIntStr s = true) :
    ∀ c ∈ s, c = '-' ∨ Json.isDigitCh c = true := by
  intro c hc
  simp [isDecIntStr, List.all_eq_true] at h
  cases s with
  | nil => simp at hc
  | cons d ds =>
    by_cases hdash : d = '-'
    · subst hdash
      have hds : ∀ x ∈ ds, Json.isDigitCh x = true := by
        simpa [decDigits] using h.2
      rcases List.mem_cons.mp hc with hc2 | hc2
      · left; exact hc2
      · right; exact hds c hc2
    · have heq : decDigits (d :: ds) = d :: ds := by
        unfold decDigits
        split
        · rename_i heads
          have : d = '-' := by
            have := congrArg (fun l => l.headD ' ') heads
            simpa using this
          exact absurd this hdash
        · rfl
      right
      apply h.2 c
      rw [heq]
      exact hc

/-- An in-scope oversized decimal integer string is longer than 15 bytes
(its digit count is at least 16). -/
theorem oversized_length (s : Str) (h1 : isDecIntStr s = true)
    (h2 : 15 < decDigitCount s ∨ 9007199254740991 < decMagnitude s) :
    15 < s.length := by
  have hsub : (decDigits s).length ≤ s.length := by
    unfold decDigits
    match s with
    | '-' :: ds => simp
    | [] => simp
    | d :: ds => cases hd : d == '-' <;> simp_all [decDigits]
  rcases h2 with h2 | h2
  · unfold decDigitCount at h2
    omega
  · by_contra hle
    push_neg at hle
    have hdigits : ∀ c ∈ decDigits s, Json.isDigitCh c = true := by
      simp [isDecIntStr, List.all_eq_true] at h1
      exact h1.2
    have := digitsFold_lt (decDigits s) 0 hdigits
    have hpow : (10 : Nat) ^ (decDigits s).length ≤ 10 ^ 15 := by
      apply Nat.pow_le_pow_right (by norm_num)
      omega
    unfold decMagnitude at h2
    have h15 : (10 : Nat) ^ 15 = 1000000000000000 := by norm_num
    omega

/-- Dashes and digits pass through the JSON string encoder unchanged. -/
theorem escapeChar_digit_or_dash (c : Char)
    (h : c = '-' ∨ Json.isDigitCh c = true) : escapeChar c = [c] := by
  rcases h with h | h
  · subst h; decide
  · have hb := isDigitCh_toNat_bounds c h
    have hq : c ≠ '"' := fun he => by subst he; simp at hb
    have hbs : c ≠ '\\' := fun he => by subst he; simp at hb
    have hn : c ≠ '\n' := fun he => by subst he; simp at hb
    have hr : c ≠ '\r' := fun he => by subst he; simp at hb
    have ht : c ≠ '\t' := fun he => by subst he; simp at hb
    have hlt : c ≠ '<' := fun he => by subst he; simp at hb
    have hgt : c ≠ '>' := fun he => by subst he; simp at hb
    have hamp : c ≠ '&' := fun he => by subst he; simp at hb
    have hctl : ¬(c.toNat < 0x20) := by omega
    have h2028 : ¬(c.toNat = 0x2028) := by omega
    have h2029 : ¬(c.toNat = 0x2029) := by omega
    simp [escapeChar, hq, hbs, hn, hr, ht, hlt, hgt, hamp, hctl, h2028, h2029]

theorem goEscape_digits (s : Str)
    (h : ∀ c ∈ s, c = '-' ∨ Json.isDigitCh c = true) : goEscape s = s := by
  induction s with
  | nil => simp [goEscape]
  | cons c cs ih =>
    have hc := escapeChar_digit_or_dash c (h c (by simp))
    have hrest := ih (fun d hd => h d (by simp [hd]))
    simp [goEscape] at hrest ⊢
    simp [hc, hrest]

end PrecisionLemmas

/-! ## Claim theorems -/

/-- C2: for every decoded response text containing one of the recognized
error phrases, `GenericInvoke`'s result stage returns a failure carrying
the raw response text, never a successful payload — regardless of any
balanced JSON span in the text. -/
theorem c2_error_phrase_short_circuits (t : Str)
    (h : Resp.containsErrorPhrase t = true) :
    Resp.genericInvokeExtract t = .error (Resp.invokeFailedMsg ++ t) := by
  simp [Resp.genericInvokeExtract, h]

theorem c2_error_phrase_short_circuits_witness :
    Resp.containsErrorPhrase ("No provider found, \x7b\"a\":1\x7d".data) = true ∧
    Resp.genericInvokeExtract ("No provider found, \x7b\"a\":1\x7d".data) =
      .error (Resp.invokeFailedMsg ++ ("No provider found, \x7b\"a\":1\x7d".data)) :=
  ⟨by decide, c2_error_phrase_short_circuits ("No provider found, \x7b\"a\":1\x7d".data) (by decide)⟩

/-- C4: on the accumulated text `"null\ndubbo>"` the assembler's special
completion check fires, `cleanResponse` extracts the business-null token,
and the invocation stage reports it as a successful result (not an error
and not an invalid/incomplete response). -/
theorem c4_business_null_completion :
    Detector.hasSpecialResponseCompletion ("null\ndubbo>".data) = true ∧
    Resp.cleanResponse ("null\ndubbo>".data) = Resp.nullTok ∧
    Resp.genericInvokeExtract ("null\ndubbo>".data) = .ok Resp.nullTok :=
  ⟨by decide, by decide, by rfl⟩

/-- C5: the array-repair step only ever returns output whose leading JSON
value re-parses (the validation the code applies before accepting), and on
the truncated array `[\x7b"a":1\x7d,\x7b"b":2` it truncates to the last
fully-closed object and appends the missing bracket, yielding the valid
JSON text `[\x7b"a":1\x7d]`. -/
theorem c5_array_repair :
    (∀ s : Str, Resp.fixIncompleteJSON s ≠ [] →
      Json.decodeOk (Resp.fixIncompleteJSON s) = true) ∧
    Resp.fixIncompleteJSON ("[\x7b\"a\":1\x7d,\x7b\"b\":2".data) =
      ("[\x7b\"a\":1\x7d]".data) ∧
    Json.unmarshalOk ("[\x7b\"a\":1\x7d]".data) = true := by
  refine ⟨?_, by decide, by decide⟩
  intro s h
  unfold Resp.fixIncompleteJSON at h ⊢
  split at h
  · rename_i hgt
    split at h
    · rename_i hdec
      simp [hgt, hdec]
    · exact absurd rfl h
  · exact absurd rfl h

theorem c5_array_repair_witness :
    Resp.fixIncompleteJSON ("[\x7b\"a\":1\x7d,\x7b\"b\":2".data) ≠ [] ∧
    Json.decodeOk (Resp.fixIncompleteJSON ("[\x7b\"a\":1\x7d,\x7b\"b\":2".data)) = true :=
  ⟨by decide, c5_array_repair.1 ("[\x7b\"a\":1\x7d,\x7b\"b\":2".data) (by decide)⟩

/-- C9 counterexample: a read error arriving after bytes were accumulated
is treated as completion even though no completion heuristic matched the
accumulated text (the claim requires the error to be surfaced then). -/
theorem c9_counterexample :
    ReadLoop.readLoop [.chunk ("partial".data), .readErr] [] =
      some (.ok ("partial".data)) ∧
    GoStr.containsSub ("partial".data) Resp.dubboMark = false ∧
    GoStr.containsSub ("partial".data) Resp.elapsedMark = false :=
  ⟨by rfl, by decide, by decide⟩

/-- C9 (amended): no bytes before the initial deadline yields the typed
timeout error; a read error (timeout or otherwise) after any bytes have
accumulated unconditionally treats the accumulated response as complete,
whether or not a completion heuristic matched; a non-timeout read error
with an empty buffer surfaces the read error. -/
theorem c9_read_loop_error_handling :
    (∀ evs, ReadLoop.readLoop (.timeoutErr :: evs) [] =
      some (.error ReadLoop.timeoutMsg)) ∧
    (∀ evs (buf : Str), buf ≠ [] →
      ReadLoop.readLoop (.timeoutErr :: evs) buf = some (.ok buf)) ∧
    (∀ evs (buf : Str), buf ≠ [] →
      ReadLoop.readLoop (.readErr :: evs) buf = some (.ok buf)) ∧
    (∀ evs, ReadLoop.readLoop (.readErr :: evs) [] =
      some (.error ReadLoop.readFailMsg)) := by
  refine ⟨fun evs => by simp [ReadLoop.readLoop], ?_, ?_, fun evs => by simp [ReadLoop.readLoop]⟩
  · intro evs buf hb
    have h1 : 0 < buf.length := List.length_pos.mpr hb
    simp [ReadLoop.readLoop, h1]
  · intro evs buf hb
    have h1 : 0 < buf.length := List.length_pos.mpr hb
    simp [ReadLoop.readLoop, h1]

theorem c9_read_loop_error_handling_witness :
    ReadLoop.readLoop [.readErr] ("x".data) = some (.ok ("x".data)) :=
  c9_read_loop_error_handling.2.2.1 [] ("x".data) (by decide)

/-- C7 counterexample: an empty configured namespace is not used
unmodified — the translation returns the literal default `public` for it. -/
theorem c7_counterexample :
    (Nacos.getRealNamespaceId [] (.ok [])).1 = ("public".data : Str) ∧
    ("public".data : Str) ≠ ([] : Str) :=
  ⟨by rfl, by decide⟩

/-- C7 (amended): the display-name translation follows exactly the spec
order with one correction — an empty configured namespace is replaced by
the literal default `public` (the literal default itself is unmodified);
a long hyphenated value is used unmodified; otherwise the fetched list is
searched by display name; on no match (or a failed fetch) the original
string is used, and the caller proceeds with it either way, so the catalog
call never hard-fails on this step. -/
theorem c7_namespace_resolution_order :
    (∀ ns fetched, Nacos.getRealNamespaceId ns fetched =
      Nacos.namespaceResolutionSpec ns fetched) ∧
    (∀ ns fetched, Nacos.serviceListNamespace ns fetched =
      (Nacos.getRealNamespaceId ns fetched).1) := by
  constructor
  · intro ns fetched
    unfold Nacos.getRealNamespaceId Nacos.namespaceResolutionSpec
    by_cases h1 : ns = ([] : Str)
    · simp [h1]
    · by_cases h2 : ns = ("public".data : Str)
      · simp [h1, h2]
      · simp [h1, h2]
  · intro ns fetched
    unfold Nacos.serviceListNamespace
    rcases hres : Nacos.getRealNamespaceId ns fetched with ⟨v, eo⟩
    cases eo with
    | none => rfl
    | some e =>
      simpa using (Nacos.getRealNamespaceId_error_keeps_ns ns v e fetched hres).symm

/-- C8 counterexample: a 200 response whose body parses under neither
service-list envelope makes `GetServiceList` return an empty catalog at
once, instead of skipping to the next endpoint variant (where a valid
older-envelope response was available). -/
theorem c8_counterexample :
    Nacos.getServiceListProbe
      [.resp 200 ("<html>oops</html>".data),
       .resp 200 ("\x7b\"count\":2,\"doms\":[\"a.Svc\",\"b.Svc\"]\x7d".data)] =
      .ok (0, []) ∧
    Nacos.getServiceListProbe
      [.resp 200 ("\x7b\"count\":2,\"doms\":[\"a.Svc\",\"b.Svc\"]\x7d".data)] =
      .ok (2, [("a.Svc".data : Str), ("b.Svc".data : Str)]) := by
  constructor <;> rfl

/-- C8 (amended): both probe loops try the endpoint variants in their fixed
order and skip non-200 responses; the namespace-list probe also skips a 200
response with an unparseable body and fails only once every variant is
exhausted, while the service-list probe accepts the first 200 response
unconditionally, returning an empty catalog when its body parses under
neither envelope; in the concrete scenario (first variant 502, second a
valid older-envelope 200 with count 2 and doms `a.Svc`,`b.Svc`) the catalog
is `a.Svc`,`b.Svc`. -/
theorem c8_probe_order :
    (∀ rest code body, code ≠ 200 →
      Nacos.getServiceListProbe (.resp code body :: rest) =
        Nacos.getServiceListProbe rest) ∧
    (∀ rest body, Nacos.parseServiceList1x body = none →
      Nacos.parseServiceList2x body = none →
      Nacos.getServiceListProbe (.resp 200 body :: rest) = .ok (0, [])) ∧
    (∀ rest code body, code ≠ 200 →
      Nacos.getNamespacesProbe (.resp code body :: rest) =
        Nacos.getNamespacesProbe rest) ∧
    (∀ rest body, Nacos.parseNsEnvelope body = none →
      Nacos.getNamespacesProbe (.resp 200 body :: rest) =
        Nacos.getNamespacesProbe rest) ∧
    Nacos.getNamespacesProbe [] = .error ("所有命名空间API端点都调用失败".data) ∧
    Nacos.getServiceListProbe [] = .error ("所有API端点都调用失败".data) ∧
    Nacos.getServiceListProbe
      [.resp 502 ("Bad Gateway".data),
       .resp 200 ("\x7b\"count\":2,\"doms\":[\"a.Svc\",\"b.Svc\"]\x7d".data)] =
      .ok (2, [("a.Svc".data : Str), ("b.Svc".data : Str)]) := by
  refine ⟨?_, ?_, ?_, ?_, rfl, rfl, rfl⟩
  · intro rest code body h
    simp [Nacos.getServiceListProbe, h]
  · intro rest body h1 h2
    simp [Nacos.getServiceListProbe, h1, h2]
  · intro rest code body h
    by_cases h502 : code = 502
    · simp [Nacos.getNamespacesProbe, h502]
    · simp [Nacos.getNamespacesProbe, h502, h]
  · intro rest body h
    simp [Nacos.getNamespacesProbe, h]

theorem c8_probe_order_witness :
    Nacos.getServiceListProbe [.resp 200 ("oops".data)] = .ok (0, []) :=
  c8_probe_order.2.1 [] ("oops".data) (by rfl) (by rfl)

/-- C10 counterexample: the raw string `\x7b"class":1\x7d]` is not valid
JSON, yet it is emitted verbatim and unquoted (the dispatch only checks
that a leading JSON value decodes), where the claim as stated requires the
JSON-quoted escaped form for it. -/
theorem c10_counterexample :
    Codec.formatSingleParameter (.vstr ("\x7b\"class\":1\x7d]".data)) =
      ("\x7b\"class\":1\x7d]".data) ∧
    Json.unmarshalOk ("\x7b\"class\":1\x7d]".data) = false ∧
    ("\x7b\"class\":1\x7d]".data : Str) ≠
      GoJson.goQuote ("\x7b\"class\":1\x7d]".data) :=
  ⟨by rfl, by rfl, by decide⟩

/-- C10 (amended): a string argument is emitted JSON-quoted and escaped,
except when it contains the substring `"class":` and a leading JSON value
of it decodes (trailing content is not checked), in which case the raw
string is emitted verbatim and unquoted; consequently a string argument
can put the same text on the wire as a structurally different (object)
argument. -/
theorem c10_string_dispatch :
    (∀ s : Str, Codec.formatSingleParameter (.vstr s) = Codec.formatStringSpec s) ∧
    Codec.formatSingleParameter (.vstr ("\x7b\"class\":\"A\"\x7d".data)) =
      Codec.formatSingleParameter (.vobj [(("class".data : Str), .vstr ("A".data))]) :=
  ⟨fun _ => rfl, by rfl⟩

/-- C1 counterexample: the 17-digit integer string round-trips through
`convertJSONNumber` and `formatSingleParameter` into its JSON-quoted form,
not into the identical bare decimal text. -/
theorem c1_counterexample :
    Codec.formatSingleParameter (Codec.convertJSONNumber (.vnum ("12345678901234567".data))) =
      ("\"12345678901234567\"".data) ∧
    Codec.formatSingleParameter (Codec.convertJSONNumber (.vnum ("12345678901234567".data))) ≠
      ("12345678901234567".data) :=
  ⟨by rfl, by decide⟩

/-- C1 (amended): for every decimal integer string with more than 15
digits or magnitude beyond the double-safe range, parsing and then
re-formatting emits the identical decimal digit sequence — unchanged, so
no precision is lost — but wrapped in JSON double quotes (the value is
carried as a string on the wire), rather than as the bare decimal text. -/
theorem c1_oversized_integer_roundtrip (s : Str)
    (h1 : Codec.isDecIntStr s = true)
    (h2 : 15 < Codec.decDigitCount s ∨ 9007199254740991 < Codec.decMagnitude s) :
    Codec.convertJSONNumber (.vnum s) = .vstr s ∧
    Codec.formatSingleParameter (Codec.convertJSONNumber (.vnum s)) = '"' :: (s ++ ['"']) ∧
    Codec.formatParameters [Codec.convertJSONNumber (.vnum s)] = '"' :: (s ++ ['"']) := by
  have hlen : 15 < s.length := oversized_length s h1 h2
  have hchars := isDecIntStr_chars s h1
  have hconv : Codec.convertJSONNumber (.vnum s) = .vstr s := by
    unfold Codec.convertJSONNumber
    simp [hlen]
  have hnoclass : GoStr.containsSub s Codec.classKeyPat = false := by
    have : Codec.classKeyPat = '"' :: ("class".data ++ ['"', ':']) := rfl
    rw [this]
    apply containsSub_eq_false_of_head_notMem
    intro c hc
    rcases hchars c hc with h | h
    · subst h; decide
    · have := isDigitCh_toNat_bounds c h
      intro he
      subst he
      simp at this
  have hescape : GoJson.goEscape s = s := goEscape_digits s hchars
  have hfmt : Codec.formatSingleParameter (.vstr s) = '"' :: (s ++ ['"']) := by
    unfold Codec.formatSingleParameter
    simp [hnoclass, GoJson.goQuote, hescape]
  refine ⟨hconv, by rw [hconv]; exact hfmt, ?_⟩
  unfold Codec.formatParameters Codec.joinCommaSpace
  simp [hconv, hfmt]

theorem c1_oversized_integer_roundtrip_witness :
    Codec.isDecIntStr ("9007199254740992".data) = true ∧
    15 < Codec.decDigitCount ("9007199254740992".data) ∧
    Codec.formatSingleParameter
      (Codec.convertJSONNumber (.vnum ("9007199254740992".data))) =
      '"' :: (("9007199254740992".data : Str) ++ ['"']) :=
  ⟨by decide, by decide,
    (c1_oversized_integer_roundtrip ("9007199254740992".data) (by decide)
      (Or.inl (by decide))).2.1⟩

section SortLemmas

open GoJson

theorem strLeB_total : ∀ a b : Str, strLeB a b = true ∨ strLeB b a = true
  | [], b => Or.inl (by cases b <;> simp [strLeB])
  | a :: as2, [] => Or.inr (by simp [strLeB])
  | a :: as2, b :: bs => by
    by_cases hab : a = b
    · subst hab
      rcases strLeB_total as2 bs with h | h
      · left; simp [strLeB, h]
      · right; simp [strLeB, h]
    · rcases lt_trichotomy a b with h | h | h
      · left; simp [strLeB, hab, h]
      · exact absurd h hab
      · right
        simp [strLeB, Ne.symm hab]
        exact h

theorem insertByKey_perm {α} (p : Str × α) (l : List (Str × α)) :
    (insertByKey p l).Perm (p :: l) := by
  induction l with
  | nil => simp [insertByKey]
  | cons q rest ih =>
    rw [insertByKey]
    split
    · exact List.Perm.refl _
    · exact List.Perm.trans (List.Perm.cons q ih) (List.Perm.swap p q rest)

theorem sortByKey_perm {α} (l : List (Str × α)) : (sortByKey l).Perm l := by
  induction l with
  | nil => simp [sortByKey]
  | cons p rest ih =>
    exact List.Perm.trans (insertByKey_perm p (sortByKey rest)) (List.Perm.cons p ih)

theorem insertByKey_chain {α} (p : Str × α) (l : List (Str × α))
    (h : l.Chain' (fun a b => strLeB a.1 b.1 = true)) :
    (insertByKey p l).Chain' (fun a b => strLeB a.1 b.1 = true) := by
  induction l with
  | nil => simp [insertByKey]
  | cons q rest ih =>
    rw [insertByKey]
    split
    · rename_i hle
      exact List.Chain'.cons hle h
    · rename_i hnle
      have hq : strLeB q.1 p.1 = true :=
        (strLeB_total p.1 q.1).resolve_left (by simpa using hnle)
      have hrest := ih h.tail
      apply List.chain'_cons'.mpr
      refine ⟨?_, hrest⟩
      intro b hb
      cases rest with
      | nil =>
        simp [insertByKey] at hb
        subst hb
        exact hq
      | cons r rs =>
        rw [insertByKey] at hb
        split at hb
        · simp at hb
          subst hb
          exact hq
        · simp at hb
          subst hb
          exact (List.chain'_cons.mp h).1

theorem sortByKey_chain {α} (l : List (Str × α)) :
    (sortByKey l).Chain' (fun a b => strLeB a.1 b.1 = true) := by
  induction l with
  | nil => simp [sortByKey]
  | cons p rest ih => exact insertByKey_chain p (sortByKey rest) ih

theorem jsonMarshalPairs_keys (fs : List (Str × GoVal)) :
    (jsonMarshalPairs fs).map Prod.fst = fs.map Prod.fst := by
  induction fs with
  | nil => rfl
  | cons p rest ih =>
    obtain ⟨k, v⟩ := p
    rw [jsonMarshalPairs]
    simp [ih]

end SortLemmas

/-- C3 counterexample: with field set `age`, `class`, the formatted object
starts with the `age` field — `json.Marshal` emits Go map keys in sorted
byte order, so the `class` field is not first. -/
theorem c3_counterexample :
    Codec.formatObjectParameter
      [(("age".data : Str), .vint 1), (("class".data : Str), .vstr ("com.x.Req".data))] =
      ("\x7b\"age\":1,\"class\":\"com.x.Req\"\x7d".data) ∧
    ¬ GoStr.startsWith
      (Codec.formatObjectParameter
        [(("age".data : Str), .vint 1), (("class".data : Str), .vstr ("com.x.Req".data))])
      ("\x7b\"class\"".data) :=
  ⟨by rfl, by decide⟩

/-- C3 (amended): formatting an object argument carrying a `class` entry
yields the brace-delimited `json.Marshal` rendering of its fields in
sorted key order: the key sequence on the wire is a permutation of the
argument's keys (no field, in particular `class`, is ever dropped), it
always contains `class`, and it is sorted — so `class` comes first exactly
when it is the least key, not unconditionally. -/
theorem c3_class_field_sorted_never_dropped (fields : List (Str × GoVal))
    (h : Codec.hasClassKey fields = true) :
    Codec.formatObjectParameter fields =
      '{' :: (GoJson.commaJoin ((GoJson.sortByKey (GoJson.jsonMarshalPairs fields)).map
        (fun kv => GoJson.goQuote kv.1 ++ ':' :: kv.2)) ++ ['}']) ∧
    ((GoJson.sortByKey (GoJson.jsonMarshalPairs fields)).map Prod.fst).Perm
      (fields.map Prod.fst) ∧
    ("class".data : Str) ∈ (GoJson.sortByKey (GoJson.jsonMarshalPairs fields)).map Prod.fst ∧
    (GoJson.sortByKey (GoJson.jsonMarshalPairs fields)).Chain'
      (fun a b => GoJson.strLeB a.1 b.1 = true) := by
  have hperm : ((GoJson.sortByKey (GoJson.jsonMarshalPairs fields)).map Prod.fst).Perm
      (fields.map Prod.fst) := by
    have h1 := (sortByKey_perm (GoJson.jsonMarshalPairs fields)).map Prod.fst
    rwa [jsonMarshalPairs_keys] at h1
  refine ⟨?_, hperm, ?_, sortByKey_chain _⟩
  · unfold Codec.formatObjectParameter
    rw [if_pos h]
    rw [GoJson.jsonMarshal]
  · have hmem : ("class".data : Str) ∈ fields.map Prod.fst := by
      unfold Codec.hasClassKey at h
      rw [List.any_eq_true] at h
      obtain ⟨kv, hkv, hk⟩ := h
      exact List.mem_map.mpr ⟨kv, hkv, by simpa using hk⟩
    exact hperm.mem_iff.mpr hmem

theorem c3_class_field_sorted_never_dropped_witness :
    Codec.hasClassKey
      [(("class".data : Str), .vstr ("com.x.Req".data)), (("companyId".data : Str), .vint 1)] = true ∧
    ("class".data : Str) ∈ (GoJson.sortByKey (GoJson.jsonMarshalPairs
      [(("class".data : Str), .vstr ("com.x.Req".data)), (("companyId".data : Str), .vint 1)])).map
        Prod.fst :=
  ⟨by decide,
    (c3_class_field_sorted_never_dropped
      [(("class".data : Str), .vstr ("com.x.Req".data)), (("companyId".data : Str), .vint 1)]
      (by decide)).2.2.1⟩

section ZkLemmas

theorem mem_scanZkChildren (cs : List (Str × Zk.ZkTree)) (s : Str) :
    s ∈ Zk.scanZkChildren cs ↔
      ∃ p ∈ cs, (Zk.hasProvidersChild p.2 = true ∧ s = p.1) ∨
        (Zk.hasProvidersChild p.2 = false ∧ s ∈ Zk.scanZkServices p.2) := by
  induction cs with
  | nil => simp [Zk.scanZkChildren]
  | cons q rest ih =>
    obtain ⟨name, t⟩ := q
    rw [Zk.scanZkChildren]
    rw [List.mem_append, ih]
    by_cases hp : Zk.hasProvidersChild t = true
    · simp only [hp, if_true]
      constructor
      · rintro (hs | ⟨p, hpmem, hcase⟩)
        · exact ⟨(name, t), by simp, Or.inl ⟨hp, by simpa using hs⟩⟩
        · exact ⟨p, by simp [hpmem], hcase⟩
      · rintro ⟨p, hpmem, hcase⟩
        rcases List.mem_cons.mp hpmem with rfl | hpmem2
        · rcases hcase with ⟨_, rfl⟩ | ⟨hfalse, _⟩
          · exact Or.inl (by simp)
          · exact absurd hp (by simp [hfalse])
        · exact Or.inr ⟨p, hpmem2, hcase⟩
    · have hp2 : Zk.hasProvidersChild t = false := by simpa using hp
      simp only [hp2, Bool.false_eq_true, if_false]
      constructor
      · rintro (hs | ⟨p, hpmem, hcase⟩)
        · exact ⟨(name, t), by simp, Or.inr ⟨hp2, hs⟩⟩
        · exact ⟨p, by simp [hpmem], hcase⟩
      · rintro ⟨p, hpmem, hcase⟩
        rcases List.mem_cons.mp hpmem with rfl | hpmem2
        · rcases hcase with ⟨htrue, _⟩ | ⟨_, hs⟩
          · exact absurd htrue (by simp [hp2])
          · exact Or.inl hs
        · exact Or.inr ⟨p, hpmem2, hcase⟩

theorem scanZk_sound :
    ∀ n (t : Zk.ZkTree) (s : Str), sizeOf t ≤ n →
      s ∈ Zk.scanZkServices t → Zk.IsServiceIn t s := by
  intro n
  induction n with
  | zero =>
    intro t s hsz _
    obtain ⟨cs⟩ := t
    simp at hsz
  | succ n ih =>
    intro t s hsz hmem
    obtain ⟨cs⟩ := t
    rw [Zk.scanZkServices] at hmem
    obtain ⟨p, hpmem, hcase⟩ := (mem_scanZkChildren cs s).mp hmem
    obtain ⟨name, tc⟩ := p
    rcases hcase with ⟨hprov, rfl⟩ | ⟨hprov, hrec⟩
    · exact Zk.IsServiceIn.here hpmem hprov
    · have hlt := List.sizeOf_lt_of_mem hpmem
      have h1 : sizeOf (Zk.ZkTree.node cs) = 1 + sizeOf cs := by simp
      have h2 : sizeOf (name, tc) = 1 + sizeOf name + sizeOf tc := by simp
      have hsz2 : sizeOf tc ≤ n := by omega
      exact Zk.IsServiceIn.deeper hpmem hprov (ih tc s hsz2 hrec)

theorem scanZk_complete (t : Zk.ZkTree) (s : Str) (h : Zk.IsServiceIn t s) :
    s ∈ Zk.scanZkServices t := by
  induction h with
  | here hpmem hprov =>
    rw [Zk.scanZkServices]
    exact (mem_scanZkChildren _ _).mpr ⟨_, hpmem, Or.inl ⟨hprov, rfl⟩⟩
  | deeper hpmem hprov _ ih =>
    rw [Zk.scanZkServices]
    exact (mem_scanZkChildren _ _).mpr ⟨_, hpmem, Or.inr ⟨hprov, ih⟩⟩

end ZkLemmas

/-- C6: the hierarchical catalog walk emits exactly the services of the
tree (a name whose node holds a `providers` child, reached by descending
only through non-service nodes); on a base holding exactly one service node
with two provider children it returns exactly that service, and the
provider-resolution step percent-decodes the first registration string and
returns its `host:port` part. -/
theorem c6_catalog_walk_and_provider :
    (∀ (t : Zk.ZkTree) (s : Str), s ∈ Zk.scanZkServices t ↔ Zk.IsServiceIn t s) ∧
    Zk.scanZkServices (.node [(("com.example.DemoService".data : Str), .node
      [(("providers".data : Str), .node
        [(("dubbo%3A%2F%2F192.168.1.5%3A20880%2Fcom.example.DemoService%3Fversion%3D1.0.0".data : Str),
          .node []),
         (("dubbo%3A%2F%2F192.168.1.6%3A20880%2Fcom.example.DemoService%3Fversion%3D1.0.0".data : Str),
          .node [])])])]) = [("com.example.DemoService".data : Str)] ∧
    Zk.getProviderFromZk
      [("dubbo%3A%2F%2F192.168.1.5%3A20880%2Fcom.example.DemoService%3Fversion%3D1.0.0".data : Str),
       ("dubbo%3A%2F%2F192.168.1.6%3A20880%2Fcom.example.DemoService%3Fversion%3D1.0.0".data : Str)] =
      .ok ("192.168.1.5:20880".data) :=
  ⟨fun t s => ⟨scanZk_sound (sizeOf t) t s le_rfl, scanZk_complete t s⟩,
    by rfl, by rfl⟩

theorem c6_catalog_walk_and_provider_witness :
    Zk.IsServiceIn (.node [(("svc.A".data : Str), .node
      [(("providers".data : Str), .node [])])]) ("svc.A".data) :=
  (c6_catalog_walk_and_provider.1 _ _).mp (by decide)
